import Mathlib

/-!
Shallow embedding of the portfolio-analysis core of `streamlit_app.py`.

Numbers are modelled as exact rationals (`ℚ`); Python strings are modelled
as Lean `String`s with character-wise ASCII case folding, which agrees with
Python `str.lower`/`str.upper` on the ASCII data this program manipulates.
Raised exceptions (`ValueError` at line 58 and `ZeroDivisionError` at
line 76) are modelled as `Except.error`, and the parse layer's float values
carry the full `float()` domain (finite, signed infinity, NaN).
-/

set_option allowUnsafeReducibility true in
attribute [semireducible] Rat.add Rat.mul Rat.sub Rat.div Rat.inv Rat.neg Rat.blt Rat.ofScientific

/-- The coarse asset type recorded in each `ASSET_CLASSES` entry
(`'type'` field: `'Equity'`, `'Fixed Income'`, `'Cash'`). -/
inductive AssetType where
  | Equity
  | FixedIncome
  | Cash
deriving DecidableEq, Repr

/-- The nine keys of the `ASSET_CLASSES` dict, in insertion order. -/
inductive AssetClass where
  | US_LARGE_CAP
  | US_MID_CAP
  | US_SMALL_CAP
  | INTERNATIONAL_DEVELOPED
  | EMERGING_MARKETS
  | US_AGGREGATE_BOND
  | HIGH_YIELD_BOND
  | INTERNATIONAL_BOND
  | CASH
deriving DecidableEq, Repr

/-- One value of the `ASSET_CLASSES` dict: `{'return': …, 'risk': …, 'type': …}`.
(`return` is a Lean keyword, so the first field is named `ret`.) -/
structure AssetClassProfile where
  ret : ℚ
  risk : ℚ
  type : AssetType
deriving DecidableEq, Repr

/-- The `ASSET_CLASSES` table of `streamlit_app.py` (lines 8–18). -/
def ASSET_CLASSES : AssetClass → AssetClassProfile
  | .US_LARGE_CAP => ⟨0.10, 0.15, .Equity⟩
  | .US_MID_CAP => ⟨0.12, 0.18, .Equity⟩
  | .US_SMALL_CAP => ⟨0.13, 0.20, .Equity⟩
  | .INTERNATIONAL_DEVELOPED => ⟨0.09, 0.16, .Equity⟩
  | .EMERGING_MARKETS => ⟨0.11, 0.22, .Equity⟩
  | .US_AGGREGATE_BOND => ⟨0.04, 0.05, .FixedIncome⟩
  | .HIGH_YIELD_BOND => ⟨0.06, 0.10, .FixedIncome⟩
  | .INTERNATIONAL_BOND => ⟨0.03, 0.07, .FixedIncome⟩
  | .CASH => ⟨0.01, 0.01, .Cash⟩

/-- The keys of `ASSET_CLASSES`, in the dict's insertion order (the order
Python iterates in `ASSET_CLASSES.items()` and `for ac in ASSET_CLASSES`). -/
def assetClassList : List AssetClass :=
  [.US_LARGE_CAP, .US_MID_CAP, .US_SMALL_CAP, .INTERNATIONAL_DEVELOPED,
   .EMERGING_MARKETS, .US_AGGREGATE_BOND, .HIGH_YIELD_BOND, .INTERNATIONAL_BOND, .CASH]

/-- Character-wise embedding of Python `str.upper()` (exact on ASCII). -/
def pyUpper (s : String) : String := ⟨s.data.map Char.toUpper⟩

/-- Character-wise embedding of Python `str.lower()` (exact on ASCII). -/
def pyLower (s : String) : String := ⟨s.data.map Char.toLower⟩

/-- `map_ticker_to_asset_class` (lines 20–41): uppercase the ticker, then a
fixed membership ladder with `'US_LARGE_CAP'` as the default. -/
def map_ticker_to_asset_class (ticker : String) : AssetClass :=
  let ticker := pyUpper ticker
  if ticker ∈ ["SPY", "IVV", "VOO"] then .US_LARGE_CAP
  else if ticker ∈ ["IJH", "VO"] then .US_MID_CAP
  else if ticker ∈ ["IJR", "VB"] then .US_SMALL_CAP
  else if ticker ∈ ["EFA", "VEA"] then .INTERNATIONAL_DEVELOPED
  else if ticker ∈ ["EEM", "VWO"] then .EMERGING_MARKETS
  else if ticker ∈ ["AGG", "BND"] then .US_AGGREGATE_BOND
  else if ticker ∈ ["HYG", "JNK"] then .HIGH_YIELD_BOND
  else if ticker ∈ ["BNDX", "IAGG"] then .INTERNATIONAL_BOND
  else if ticker = "CASH" then .CASH
  else .US_LARGE_CAP

/-- One parsed holding: `{'ticker': …, 'percentage': …}`. -/
structure Holding where
  ticker : String
  percentage : ℚ
deriving DecidableEq, Repr

/-- The four loop accumulators of `analyze_portfolio` (lines 44–55). -/
structure AccState where
  total_weight : ℚ
  weighted_return : ℚ
  weighted_risk : ℚ
  asset_class_weights : AssetClass → ℚ

/-- One iteration of the `for holding in portfolio` loop (lines 49–55). -/
def analyzeStep (acc : AccState) (holding : Holding) : AccState :=
  let asset_class := map_ticker_to_asset_class holding.ticker
  let weight := holding.percentage / 100
  { total_weight := acc.total_weight + weight
    weighted_return := acc.weighted_return + (ASSET_CLASSES asset_class).ret * weight
    weighted_risk := acc.weighted_risk + (ASSET_CLASSES asset_class).risk * weight
    asset_class_weights := fun ac =>
      if ac = asset_class then acc.asset_class_weights ac + weight
      else acc.asset_class_weights ac }

/-- The risk-tier ladder of lines 68–74. -/
def risk_level_of (equity_percentage : ℚ) : String :=
  if equity_percentage > 70 then "aggressive"
  else if equity_percentage < 30 then "conservative"
  else "moderate"

/-- The analysis dict returned at lines 78–87. -/
structure AnalysisResult where
  expected_return : ℚ
  risk : ℚ
  sharpe_ratio : ℚ
  equity_percentage : ℚ
  fixed_income_percentage : ℚ
  cash_percentage : ℚ
  risk_level : String
  asset_class_weights : AssetClass → ℚ

/-- The weight of a portfolio's holdings in a given class-type bucket, as
computed at lines 64–66: a generator-expression sum over `ASSET_CLASSES.items()`
filtered on the `'type'` field. -/
def typeWeight (acc : AccState) (t : AssetType) : ℚ :=
  ((assetClassList.filter fun ac => (ASSET_CLASSES ac).type = t).map
    acc.asset_class_weights).sum

/-- Lines 60–87 of `analyze_portfolio`, applied once the loop accumulators
are known and the weight-sum check has passed.  (`portfolio_return` and
`portfolio_risk` are lines 60–61; the percentage fields are lines 64–66,
where `cash_percentage` is a direct `'CASH'` lookup rather than a filtered
sum; `risk_level` is lines 68–74; `sharpe_ratio` is line 76.) -/
def analysis_of (acc : AccState) : AnalysisResult :=
  { expected_return := acc.weighted_return
    risk := acc.weighted_risk
    sharpe_ratio := (acc.weighted_return - (ASSET_CLASSES .CASH).ret) / acc.weighted_risk
    equity_percentage := typeWeight acc .Equity * 100
    fixed_income_percentage := typeWeight acc .FixedIncome * 100
    cash_percentage := acc.asset_class_weights .CASH * 100
    risk_level := risk_level_of (typeWeight acc .Equity * 100)
    asset_class_weights := acc.asset_class_weights }

/-- Python's built-in `abs` on numbers. -/
def pyAbs (q : ℚ) : ℚ := if q < 0 then -q else q

/-- The zero-initialized loop accumulators of lines 44–47. -/
def initAcc : AccState := ⟨0, 0, 0, fun _ => 0⟩

/-- `analyze_portfolio` (lines 43–87).  The `raise ValueError` at line 58 is
modelled as `Except.error` with the raised message.  When the accumulated
`weighted_risk` is zero, the division at line 76 raises `ZeroDivisionError`
("float division by zero") before the dict is built; both raising paths
return no result.  `analysis_of` (whose rational division is total) is
therefore only ever applied under the nonzero-risk guard. -/
def analyze_portfolio (portfolio : List Holding) : Except String AnalysisResult :=
  if pyAbs ((portfolio.foldl analyzeStep initAcc).total_weight - 1) > 0.0001 then
    .error "Portfolio weights do not sum to 100%"
  else if (portfolio.foldl analyzeStep initAcc).weighted_risk = 0 then
    .error "float division by zero"
  else
    .ok (analysis_of (portfolio.foldl analyzeStep initAcc))

instance {ε α : Type _} [DecidableEq ε] [DecidableEq α] : DecidableEq (Except ε α) := fun x y =>
  match x, y with
  | .error a, .error b =>
      decidable_of_iff (a = b) ⟨fun h => by rw [h], fun h => by injection h⟩
  | .ok a, .ok b =>
      decidable_of_iff (a = b) ⟨fun h => by rw [h], fun h => by injection h⟩
  | .error _, .ok _ => isFalse fun h => Except.noConfusion h
  | .ok _, .error _ => isFalse fun h => Except.noConfusion h

/-- The sample portfolio shown by the app: `SPY 30, AGG 40, EFA 20, CASH 10`. -/
def samplePortfolio : List Holding :=
  [⟨"SPY", 30⟩, ⟨"AGG", 40⟩, ⟨"EFA", 20⟩, ⟨"CASH", 10⟩]

/-- The percentages summed by the app shell before calling `analyze_portfolio`
(line 264: `sum(holding['percentage'] for holding in portfolio)`). -/
def total_percentage (p : List Holding) : ℚ := (p.map Holding.percentage).sum

/-- All ticker strings that appear in the fixed lookup ladder of
`map_ticker_to_asset_class` (its mapping table). -/
def knownTickers : List String :=
  ["SPY", "IVV", "VOO", "IJH", "VO", "IJR", "VB", "EFA", "VEA", "EEM", "VWO",
   "AGG", "BND", "HYG", "JNK", "BNDX", "IAGG", "CASH"]

/-- The characters Python treats as whitespace in `str.strip()` / `str.split()`
(ASCII portion, which covers this app's input alphabet). -/
def pyIsSpace (c : Char) : Bool :=
  c = ' ' || c = '\t' || c = '\n' || c = '\r' || c = '\x0b' || c = '\x0c'

/-- Python `str.strip()`: drop leading and trailing whitespace. -/
def pyStrip (s : String) : String :=
  ⟨((s.data.dropWhile pyIsSpace).reverse.dropWhile pyIsSpace).reverse⟩

/-- Helper for `splitChar`: scan left to right, holding the current piece in
reverse in `cur`. -/
def splitCharAux (sep : Char) (cur : List Char) : List Char → List (List Char)
  | [] => [cur.reverse]
  | c :: cs =>
    if c = sep then cur.reverse :: splitCharAux sep [] cs
    else splitCharAux sep (c :: cur) cs

/-- Splitting a character list at every occurrence of a separator character,
as Python `str.split(sep)` does for a one-character separator: the result is
always nonempty and its pieces never contain the separator. -/
def splitChar (sep : Char) (l : List Char) : List (List Char) := splitCharAux sep [] l

/-- Python `s.split(sep)` for a one-character separator. -/
def pySplitOnChar (sep : Char) (s : String) : List String :=
  (splitChar sep s.data).map fun l => (⟨l⟩ : String)

/-- Helper for `pySplitWs`: accumulate the current (reversed) token while
scanning; whitespace runs of any length separate tokens and produce none of
the empty strings Python's no-argument `str.split()` omits. -/
def splitWsAux (cur : List Char) : List Char → List (List Char)
  | [] => if cur.isEmpty then [] else [cur.reverse]
  | c :: cs =>
    if pyIsSpace c then
      if cur.isEmpty then splitWsAux [] cs else cur.reverse :: splitWsAux [] cs
    else splitWsAux (c :: cur) cs

/-- Python `str.split()` with no argument (used at line 93: `line.split()`). -/
def pySplitWs (s : String) : List String :=
  (splitWsAux [] s.data).map fun l => (⟨l⟩ : String)

/-- Value of a digit run, most significant first. -/
def digitsVal (l : List Char) : ℕ := l.foldl (fun a c => a * 10 + (c.toNat - 48)) 0

/-- Split a character list at the first character satisfying `p`, returning
the prefix and, when a split happened, the remainder. -/
def splitFirst (p : Char → Bool) : List Char → List Char × Option (List Char)
  | [] => ([], none)
  | c :: cs =>
    if p c then ([], some cs)
    else
      let r := splitFirst p cs
      (c :: r.1, r.2)

/-- The value domain of Python's `float(str)`: a finite value (carried
exactly as a rational in this model), a signed infinity, or a NaN.  Python's
`float` accepts the non-finite literals `inf`/`infinity`/`nan`, so the parse
layer must represent them to characterize exactly which lines produce
holdings. -/
inductive PyFloat where
  | finite (q : ℚ)
  | inf (neg : Bool)
  | nan
deriving DecidableEq, Repr

/-- PEP 515 underscore placement, as CPython validates it before stripping
the underscores from a `float()` argument: every `'_'` must be immediately
preceded and followed by a digit (the check runs over the whole token, sign,
dot and exponent marker included).  `prev` is the character just before the
remaining suffix, `none` at the start of the token. -/
def underscoresValidAux : Option Char → List Char → Bool
  | _, [] => true
  | prev, '_' :: rest =>
    (match prev with
     | some p => p.isDigit
     | none => false) &&
    (match rest with
     | n :: _ => n.isDigit
     | [] => false) &&
    underscoresValidAux (some '_') rest
  | _, c :: rest => underscoresValidAux (some c) rest

/-- PEP 515 underscore validity of a whole token. -/
def underscoresValid (l : List Char) : Bool := underscoresValidAux none l

/-- Python `float(str)` on whitespace-free ASCII tokens, the token alphabet
this app's `line.split()` produces: an optional sign followed by
`inf`/`infinity`/`nan` (case-insensitive) or a decimal/scientific literal
`digits[.digits][(e|E)[+-]digits]` (at least one mantissa digit), with
PEP 515 underscore separators validated and stripped first.  A failed
conversion is the `ValueError` that line 102 catches, modelled as
`Except.error`.  Finite literals carry their exact rational value — the
model idealizes IEEE rounding and overflow away, as it does throughout. -/
def pyFloat? (s : String) : Except String PyFloat :=
  if !underscoresValid s.data then .error "could not convert string to float"
  else
    let signRest : Bool × List Char :=
      match s.data.filter (fun c => !(c = '_')) with
      | '+' :: rest => (false, rest)
      | '-' :: rest => (true, rest)
      | rest => (false, rest)
    let low := signRest.2.map Char.toLower
    if low = "inf".data || low = "infinity".data then .ok (.inf signRest.1)
    else if low = "nan".data then .ok .nan
    else
      let sign : ℚ := if signRest.1 then -1 else 1
      let mantExp := splitFirst (fun c => c = 'e' || c = 'E') signRest.2
      let intFrac := splitFirst (fun c => c = '.') mantExp.1
      let ip := intFrac.1
      let fp := (intFrac.2).getD []
      if ip.all Char.isDigit && fp.all Char.isDigit && !(ip.isEmpty && fp.isEmpty) then
        let mantVal : ℚ := (digitsVal ip : ℚ) + (digitsVal fp : ℚ) / (10 : ℚ) ^ fp.length
        match mantExp.2 with
        | none => .ok (.finite (sign * mantVal))
        | some es =>
          let expSignRest : Bool × List Char :=
            match es with
            | '+' :: rest => (false, rest)
            | '-' :: rest => (true, rest)
            | rest => (false, rest)
          if !expSignRest.2.isEmpty && expSignRest.2.all Char.isDigit then
            if expSignRest.1 then .ok (.finite (sign * mantVal / 10 ^ digitsVal expSignRest.2))
            else .ok (.finite (sign * mantVal * 10 ^ digitsVal expSignRest.2))
          else .error "could not convert string to float"
      else .error "could not convert string to float"

/-- One holding as produced by `parse_portfolio_input`:
`{'ticker': parts[0], 'percentage': float(parts[1])}` over the full float
value domain.  (The analysis claims quantify over `Holding`, whose rational
percentage is the finite case of `PyFloat`.) -/
structure ParsedHolding where
  ticker : String
  percentage : PyFloat
deriving DecidableEq, Repr

/-- The body of the `for line in lines` loop of `parse_portfolio_input`
(lines 92–103).  The first component accumulates the `portfolio` list; the
second accumulates the messages passed to `st.error` for lines whose second
token fails to convert. -/
def parseStep (acc : List ParsedHolding × List String) (line : String) :
    List ParsedHolding × List String :=
  match pySplitWs line with
  | ticker :: pstr :: _ =>
      match pyFloat? pstr with
      | .ok percentage => (acc.1 ++ [⟨ticker, percentage⟩], acc.2)
      | .error _ => (acc.1, acc.2 ++ ["Invalid percentage for ticker " ++ ticker])
  | _ => acc

/-- `parse_portfolio_input` (lines 89–104): strip the input, split it into
lines, and process each line in order, skipping lines with fewer than two
tokens and reporting (not raising) on unconvertible percentages. -/
def parse_portfolio_input (input_text : String) : List ParsedHolding × List String :=
  let lines := pySplitOnChar '\n' (pyStrip input_text)
  lines.foldl parseStep ([], [])

/-- The holding a single line contributes, if any: at least two
whitespace-separated tokens and a second token convertible to a float. -/
def parsedLine? (line : String) : Option ParsedHolding :=
  match pySplitWs line with
  | ticker :: pstr :: _ =>
      match pyFloat? pstr with
      | .ok percentage => some ⟨ticker, percentage⟩
      | .error _ => none
  | _ => none

/-- The error message a single line contributes, if any: at least two
tokens but a second token that fails float conversion. -/
def lineError? (line : String) : Option String :=
  match pySplitWs line with
  | ticker :: pstr :: _ =>
      match pyFloat? pstr with
      | .ok _ => none
      | .error _ => some ("Invalid percentage for ticker " ++ ticker)
  | _ => none

/-- Python's substring test `sub in s`. -/
def pyIn (sub s : String) : Bool := decide (sub.data <:+: s.data)

/-- Python's `s.endswith(sfx)`. -/
def pyEndsWith (sfx s : String) : Bool := decide (sfx.data <:+ s.data)

/-- `required_phrases` of `is_summary_satisfactory` (line 170), verbatim —
including the capital `S` of `'Sharpe ratio'`. -/
def required_phrases : List String :=
  ["stocks", "bonds", "cash", "risk", "return", "Sharpe ratio", "financial advisor"]

/-- `is_summary_satisfactory` (lines 168–171): every required phrase must be
a substring of the lowercased summary. -/
def is_summary_satisfactory (summary : String) : Bool :=
  required_phrases.all fun phrase => pyIn phrase (pyLower summary)

/-- The seven required topic keywords in case-normalized (lowercase) form, as
the specification's case-insensitive validation property states them. -/
def required_phrases_ci : List String :=
  ["stocks", "bonds", "cash", "risk", "return", "sharpe ratio", "financial advisor"]

/-- Python `sep.join(pieces)` at the character level. -/
def joinWith (sep : List Char) : List (List Char) → List Char
  | [] => []
  | [x] => x
  | x :: xs => x ++ sep ++ joinWith sep xs

/-- Python `sep.join(pieces)`. -/
def pyJoin (sep : String) (pieces : List String) : String :=
  ⟨joinWith sep.data (pieces.map String.data)⟩

/-- The body of the deduplication loop of lines 155–157: keep a line only if
it has not been seen before, preserving first-occurrence order. -/
def dedupStep (acc : List String) (line : String) : List String :=
  if line ∈ acc then acc else acc ++ [line]

/-- The `cleaned_summary` local of `post_process_summary` (lines 153–160):
the summary's lines, deduplicated in order, rejoined with spaces. -/
def cleaned_summary_of (summary : String) : String :=
  pyJoin " " ((pySplitOnChar '\n' summary).foldl dedupStep [])

/-- `post_process_summary` (lines 151–166): split into lines, keep the first
occurrence of each line, rejoin with spaces, and force terminal punctuation. -/
def post_process_summary (summary : String) : String :=
  if pyEndsWith "." (cleaned_summary_of summary) then cleaned_summary_of summary
  else cleaned_summary_of summary ++ "."

/-- Floor of a rational, computed on the numerator and denominator. -/
def ratFloor (q : ℚ) : ℤ := q.num.fdiv q.den

/-- Round half to even, the rounding CPython's float formatting applies. -/
def roundHalfEven (q : ℚ) : ℤ :=
  let f := ratFloor q
  let frac := q - (f : ℚ)
  if frac < 1/2 then f
  else if frac > 1/2 then f + 1
  else if 2 ∣ f then f else f + 1

/-- Left-pad a digit string with zeros to the given width. -/
def padLeftZeros (s : String) (width : ℕ) : String :=
  ⟨List.replicate (width - s.length) '0' ++ s.data⟩

/-- Python `format(q, '.<prec>f')` on the exact rational carried by the
model: fixed-point rendering with `prec` fractional digits. -/
def formatFixed (prec : ℕ) (q : ℚ) : String :=
  let scaled := roundHalfEven (q * (10 : ℚ) ^ prec)
  let sign := if scaled < 0 then "-" else ""
  let m := scaled.natAbs
  if prec = 0 then sign ++ toString m
  else
    sign ++ toString (m / 10 ^ prec) ++ "." ++
      padLeftZeros (toString (m % 10 ^ prec)) prec

/-- Concatenation of the literal chunks and substituted field values that
`str.format` interleaves. -/
def strConcat (pieces : List String) : String := ⟨(pieces.map String.data).flatten⟩

/-- The three `templates` of `generate_fallback_summary` (lines 174–178),
with each `{…}` placeholder replaced by the corresponding argument string.
`random.choice(templates)` (line 180) is modelled by the explicit `choice`
index. -/
def fallbackTemplatePieces (choice : Fin 3)
    (risk_level stocks bonds cash return_ risk sharpe sharpe_description : String) :
    List String :=
  match choice with
  | 0 =>
    ["This ", risk_level, " portfolio consists of ", stocks, "% stocks, ", bonds,
     "% bonds, and ", cash,
     "% cash. Stocks offer growth potential but can be volatile, bonds provide steady income with lower risk, and cash offers stability. The expected annual return is ",
     return_, "%, with an estimated risk of ", risk, "%. The Sharpe ratio of ", sharpe,
     " indicates the portfolio's risk-adjusted performance. Remember, past performance doesn't guarantee future results. Consider consulting a financial advisor for personalized advice."]
  | 1 =>
    ["Your investment portfolio has a ", risk_level, " approach, with ", stocks,
     "% in stocks for growth, ", bonds, "% in bonds for stability, and ", cash,
     "% in cash for security. It aims for an annual return of ", return_,
     "%, with a risk level of ", risk, "%. The Sharpe ratio (", sharpe, ") suggests ",
     sharpe_description,
     ". Always keep in mind that investments can go up or down, and it's wise to seek professional financial advice."]
  | 2 =>
    ["This ", risk_level, " portfolio balances ", stocks, "% stocks, ", bonds,
     "% bonds, and ", cash,
     "% cash. Stocks can grow but fluctuate, bonds offer steadier returns, and cash provides a safety net. Aiming for a ",
     return_, "% annual return with ", risk, "% risk, it has a Sharpe ratio of ", sharpe,
     ", indicating its efficiency. Remember, financial markets can be unpredictable, so consider talking to a financial advisor about your specific goals."]

/-- `generate_fallback_summary` (lines 173–193), with the random template
selection made explicit as `choice`. -/
def generate_fallback_summary (choice : Fin 3) (analysis : AnalysisResult) : String :=
  let sharpe_description :=
    if analysis.sharpe_ratio > 0.5 then "a good balance of return for the risk taken"
    else "room for improvement in balancing return and risk"
  strConcat (fallbackTemplatePieces choice
    analysis.risk_level
    (formatFixed 1 analysis.equity_percentage)
    (formatFixed 1 analysis.fixed_income_percentage)
    (formatFixed 1 analysis.cash_percentage)
    (formatFixed 2 (analysis.expected_return * 100))
    (formatFixed 2 (analysis.risk * 100))
    (formatFixed 2 analysis.sharpe_ratio)
    sharpe_description)

/-- Sum of the per-class weight table over the nine asset classes. -/
def sumAllClasses (f : AssetClass → ℚ) : ℚ := (assetClassList.map f).sum

/-!  ## Theorems  -/

theorem pyAbs_eq_abs (q : ℚ) : pyAbs q = |q| := by
  unfold pyAbs
  split
  · exact (abs_of_neg (by assumption)).symm
  · next h => exact (abs_of_nonneg (not_lt.mp h)).symm

/-- Inverting a successful run of `analyze_portfolio`: the weight-sum check
passed, the accumulated risk is nonzero (no `ZeroDivisionError`), and the
result is `analysis_of` applied to the loop accumulators. -/
theorem analyze_portfolio_ok (p : List Holding) (r : AnalysisResult)
    (h : analyze_portfolio p = .ok r) :
    pyAbs ((p.foldl analyzeStep initAcc).total_weight - 1) ≤ 0.0001 ∧
    (p.foldl analyzeStep initAcc).weighted_risk ≠ 0 ∧
    r = analysis_of (p.foldl analyzeStep initAcc) := by
  unfold analyze_portfolio at h
  rcases lt_or_le 0.0001 (pyAbs ((p.foldl analyzeStep initAcc).total_weight - 1)) with hgt | hle
  · rw [if_pos hgt] at h
    exact absurd h (by simp)
  · rw [if_neg (not_lt.mpr hle)] at h
    by_cases hz : (p.foldl analyzeStep initAcc).weighted_risk = 0
    · rw [if_pos hz] at h
      exact absurd h (by simp)
    · rw [if_neg hz] at h
      injection h with h
      exact ⟨hle, hz, h.symm⟩

/-- The three branches of the lines 68–74 ladder, characterized. -/
theorem risk_level_of_spec (e : ℚ) :
    (risk_level_of e = "aggressive" ↔ 70 < e) ∧
    (risk_level_of e = "conservative" ↔ e < 30) ∧
    (risk_level_of e = "moderate" ↔ 30 ≤ e ∧ e ≤ 70) := by
  unfold risk_level_of
  by_cases h1 : e > 70
  · rw [if_pos h1]
    refine ⟨⟨fun _ => h1, fun _ => rfl⟩, ?_, ?_⟩
    · exact ⟨fun hc => absurd hc (by decide), fun h30 => absurd h1 (by linarith)⟩
    · exact ⟨fun hc => absurd hc (by decide), fun hb => absurd h1 (by linarith [hb.2])⟩
  · rw [if_neg h1]
    have h70 : e ≤ 70 := not_lt.mp h1
    by_cases h2 : e < 30
    · rw [if_pos h2]
      refine ⟨⟨fun hc => absurd hc (by decide), fun hgt => absurd hgt (by linarith)⟩,
        ⟨fun _ => h2, fun _ => rfl⟩,
        ⟨fun hc => absurd hc (by decide), fun hb => absurd h2 (by linarith [hb.1])⟩⟩
    · rw [if_neg h2]
      have h30 : 30 ≤ e := not_lt.mp h2
      exact ⟨⟨fun hc => absurd hc (by decide), fun hgt => absurd hgt (by linarith)⟩,
        ⟨fun hc => absurd hc (by decide), fun hlt => absurd hlt (by linarith)⟩,
        ⟨fun _ => ⟨h30, h70⟩, fun _ => rfl⟩⟩

/-- The loop's `total_weight` accumulator sums `percentage / 100` over the
portfolio. -/
theorem foldl_total_weight (p : List Holding) :
    ∀ acc : AccState, (p.foldl analyzeStep acc).total_weight
      = acc.total_weight + (p.map fun h => h.percentage / 100).sum := by
  induction p with
  | nil => intro acc; simp
  | cons h t ih =>
    intro acc
    rw [List.foldl_cons, ih]
    simp [analyzeStep]
    ring

/-- Specialization of `foldl_total_weight` to the zero-initialized run. -/
theorem foldl_total_weight_init (p : List Holding) :
    (p.map fun h => h.percentage / 100).sum = (p.foldl analyzeStep initAcc).total_weight := by
  rw [foldl_total_weight]
  simp [initAcc]

/-- C1: on the static-model path, the four sample holdings SPY 30, AGG 40,
EFA 20, CASH 10 produce an expected return of exactly
0.30·0.10+0.40·0.04+0.20·0.09+0.10·0.01 = 0.065, a risk of exactly
0.30·0.15+0.40·0.05+0.20·0.16+0.10·0.01 = 0.098, and a Sharpe ratio of
exactly (0.065−0.01)/0.098 (which is within 0.0001 of 0.5612). -/
theorem analyze_sample_static_values :
    (analyze_portfolio samplePortfolio).map AnalysisResult.expected_return
        = .ok (0.30 * 0.10 + 0.40 * 0.04 + 0.20 * 0.09 + 0.10 * 0.01) ∧
    (analyze_portfolio samplePortfolio).map AnalysisResult.expected_return = .ok 0.065 ∧
    (analyze_portfolio samplePortfolio).map AnalysisResult.risk
        = .ok (0.30 * 0.15 + 0.40 * 0.05 + 0.20 * 0.16 + 0.10 * 0.01) ∧
    (analyze_portfolio samplePortfolio).map AnalysisResult.risk = .ok 0.098 ∧
    (analyze_portfolio samplePortfolio).map AnalysisResult.sharpe_ratio
        = .ok ((0.065 - 0.01) / 0.098) ∧
    (analyze_portfolio samplePortfolio).map
        (fun r => decide (pyAbs (r.sharpe_ratio - 0.5612) ≤ 0.0001)) = .ok true := by
  refine ⟨?_, ?_, ?_, ?_, ?_, ?_⟩ <;> decide

/-- C2: for every accepted portfolio, the risk level is `"aggressive"` iff
the equity percentage is strictly above 70, `"conservative"` iff it is
strictly below 30, and `"moderate"` iff it lies in the closed band
[30, 70] — so exactly 70 and exactly 30 both classify as `"moderate"`. -/
theorem analyze_risk_level_iff (p : List Holding) (r : AnalysisResult)
    (h : analyze_portfolio p = .ok r) :
    (r.risk_level = "aggressive" ↔ 70 < r.equity_percentage) ∧
    (r.risk_level = "conservative" ↔ r.equity_percentage < 30) ∧
    (r.risk_level = "moderate" ↔ 30 ≤ r.equity_percentage ∧ r.equity_percentage ≤ 70) := by
  obtain ⟨-, -, hr⟩ := analyze_portfolio_ok p r h
  subst hr
  exact risk_level_of_spec _

/-- Witness for C2: the sample portfolio is accepted, sits at 50% equity
inside the band, and is classified `"moderate"`. -/
theorem analyze_risk_level_iff_witness :
    ∃ r, analyze_portfolio samplePortfolio = Except.ok r ∧
      (r.risk_level = "moderate" ↔ 30 ≤ r.equity_percentage ∧ r.equity_percentage ≤ 70) :=
  ⟨_, rfl, (analyze_risk_level_iff samplePortfolio _ rfl).2.2⟩

/-- C3: `analyze_portfolio` fails (with the `ValueError` message of line 58)
exactly when the sum of the holdings' `percentage / 100` weights differs
from 1 by more than 0.0001, and a failing run returns no analysis result. -/
theorem analyze_error_iff (p : List Holding) :
    (analyze_portfolio p = .error "Portfolio weights do not sum to 100%" ↔
      |(p.map fun h => h.percentage / 100).sum - 1| > 0.0001) ∧
    (∀ e, analyze_portfolio p = .error e → ∀ r, analyze_portfolio p ≠ .ok r) := by
  constructor
  · rw [foldl_total_weight_init p, ← pyAbs_eq_abs]
    unfold analyze_portfolio
    rcases lt_or_le 0.0001 (pyAbs ((p.foldl analyzeStep initAcc).total_weight - 1)) with hgt | hle
    · rw [if_pos hgt]
      exact ⟨fun _ => hgt, fun _ => rfl⟩
    · rw [if_neg (not_lt.mpr hle)]
      by_cases hz : (p.foldl analyzeStep initAcc).weighted_risk = 0
      · rw [if_pos hz]
        refine ⟨fun hc => ?_, fun hgt => absurd hgt (not_lt.mpr hle)⟩
        injection hc with hc
        exact absurd hc (by decide)
      · rw [if_neg hz]
        exact ⟨fun hc => absurd hc (by simp), fun hgt => absurd hgt (not_lt.mpr hle)⟩
  · intro e he r hr
    rw [he] at hr
    exact absurd hr (by simp)

/-- Witness for C3: a lone 50% holding (weight sum 0.5) is rejected with the
line-58 error and yields no result. -/
theorem analyze_error_iff_witness :
    analyze_portfolio [⟨"SPY", (50 : ℚ)⟩] = .error "Portfolio weights do not sum to 100%" ∧
    |(([⟨"SPY", (50 : ℚ)⟩] : List Holding).map fun h => h.percentage / 100).sum - 1| > 0.0001 ∧
    ∀ r, analyze_portfolio [⟨"SPY", (50 : ℚ)⟩] ≠ .ok r := by
  have h := analyze_error_iff [⟨"SPY", (50 : ℚ)⟩]
  have herr : analyze_portfolio [⟨"SPY", (50 : ℚ)⟩]
      = .error "Portfolio weights do not sum to 100%" := rfl
  exact ⟨herr, h.1.mp herr, h.2 _ herr⟩

/-- Adding `w` at one class of the weight table adds `w` to its total. -/
theorem sumAllClasses_update (f : AssetClass → ℚ) (k : AssetClass) (w : ℚ) :
    sumAllClasses (fun ac => if ac = k then f ac + w else f ac) = sumAllClasses f + w := by
  cases k <;> simp [sumAllClasses, assetClassList] <;> ring

/-- The loop's weight table always totals to the `total_weight` accumulator. -/
theorem foldl_sumAllClasses (p : List Holding) :
    ∀ acc : AccState, sumAllClasses (p.foldl analyzeStep acc).asset_class_weights
      = sumAllClasses acc.asset_class_weights + (p.map fun h => h.percentage / 100).sum := by
  induction p with
  | nil => intro acc; simp
  | cons h t ih =>
    intro acc
    rw [List.foldl_cons, ih]
    show sumAllClasses (analyzeStep acc h).asset_class_weights + _ = _
    have : (analyzeStep acc h).asset_class_weights = fun ac =>
        if ac = map_ticker_to_asset_class h.ticker
        then acc.asset_class_weights ac + h.percentage / 100
        else acc.asset_class_weights ac := rfl
    rw [this, sumAllClasses_update]
    simp
    ring

/-- The nine classes partition into the Equity, Fixed Income and Cash
buckets: the three bucket sums recover the whole table's sum. -/
theorem typeWeight_partition (acc : AccState) :
    typeWeight acc .Equity + typeWeight acc .FixedIncome + acc.asset_class_weights .CASH
      = sumAllClasses acc.asset_class_weights := by
  simp [typeWeight, sumAllClasses, assetClassList, ASSET_CLASSES]
  ring

/-- Sums of `percentage / 100` rescale sums of `percentage`. -/
theorem sum_map_div_100 (p : List Holding) :
    (p.map fun h => h.percentage / 100).sum = (p.map Holding.percentage).sum / 100 := by
  induction p with
  | nil => simp
  | cons h t ih => simp [ih]; ring

/-- Every asset class in the static table carries a risk of at least 0.01. -/
theorem ASSET_CLASSES_risk_lb (ac : AssetClass) : (0.01 : ℚ) ≤ (ASSET_CLASSES ac).risk := by
  cases ac <;> decide

/-- Under nonnegative percentages, the accumulated weighted risk dominates
0.01 times the accumulated total weight. -/
theorem foldl_weighted_risk_lb (p : List Holding) (hpos : ∀ h ∈ p, 0 ≤ h.percentage) :
    ∀ acc : AccState,
      acc.weighted_risk - 0.01 * acc.total_weight
        ≤ (p.foldl analyzeStep acc).weighted_risk
          - 0.01 * (p.foldl analyzeStep acc).total_weight := by
  induction p with
  | nil => intro acc; simp
  | cons h t ih =>
    intro acc
    rw [List.foldl_cons]
    refine le_trans ?_ (ih (fun x hx => hpos x (List.mem_cons_of_mem _ hx)) _)
    have hw : (0 : ℚ) ≤ h.percentage / 100 :=
      div_nonneg (hpos h (List.mem_cons_self _ _)) (by norm_num)
    have hr := ASSET_CLASSES_risk_lb (map_ticker_to_asset_class h.ticker)
    simp only [analyzeStep]
    nlinarith [hw, hr]

/-- C6 counterexample: the holdings AGG 200, HYG −100 sum to exactly 100,
yet `analyze_portfolio` returns no result at all — the accumulated risk is
0.05·2 + 0.10·(−1) = 0, so line 76 raises `ZeroDivisionError` — refuting
the claim that every portfolio within the 0.01 tolerance yields a result. -/
theorem analyze_percentages_partition_counterexample :
    |total_percentage [⟨"AGG", (200 : ℚ)⟩, ⟨"HYG", (-100 : ℚ)⟩] - 100| ≤ 0.01 ∧
    analyze_portfolio [⟨"AGG", (200 : ℚ)⟩, ⟨"HYG", (-100 : ℚ)⟩]
      = .error "float division by zero" ∧
    ∀ r, analyze_portfolio [⟨"AGG", (200 : ℚ)⟩, ⟨"HYG", (-100 : ℚ)⟩] ≠ .ok r := by
  refine ⟨by rw [← pyAbs_eq_abs]; decide, rfl, ?_⟩
  intro r hr
  rw [show analyze_portfolio [⟨"AGG", (200 : ℚ)⟩, ⟨"HYG", (-100 : ℚ)⟩]
      = .error "float division by zero" from rfl] at hr
  exact absurd hr (by simp)

/-- C6 (amended): whenever the holdings' percentages are nonnegative and sum
to 100 within the 0.01 tolerance, `analyze_portfolio` succeeds and its three
asset-type percentage fields add up exactly to the sum of the holdings'
percentages, because the nine asset classes partition into Equity, Fixed
Income and Cash.  (Without nonnegativity the weighted risk can vanish and
the line-76 division raises, returning no result — see the
counterexample.) -/
theorem analyze_percentages_partition (p : List Holding)
    (hpos : ∀ h ∈ p, 0 ≤ h.percentage)
    (h : |total_percentage p - 100| ≤ 0.01) :
    ∃ r, analyze_portfolio p = .ok r ∧
      r.equity_percentage + r.fixed_income_percentage + r.cash_percentage
        = total_percentage p := by
  have htw : (p.foldl analyzeStep initAcc).total_weight = total_percentage p / 100 := by
    rw [← foldl_total_weight_init, sum_map_div_100]
    rfl
  have habs := abs_le.mp h
  have hcheck : ¬(pyAbs ((p.foldl analyzeStep initAcc).total_weight - 1) > 0.0001) := by
    rw [not_lt, pyAbs_eq_abs, htw]
    rw [abs_le]
    constructor <;> [linarith [habs.1]; linarith [habs.2]]
  have hlb := foldl_weighted_risk_lb p hpos initAcc
  have hinit0 : initAcc.weighted_risk - 0.01 * initAcc.total_weight = 0 := by
    simp [initAcc]
  rw [hinit0] at hlb
  have htot : (0.9999 : ℚ) ≤ (p.foldl analyzeStep initAcc).total_weight := by
    rw [htw]
    linarith [habs.1]
  have hz : (p.foldl analyzeStep initAcc).weighted_risk ≠ 0 := by
    intro h0
    rw [h0] at hlb
    nlinarith [htot, hlb]
  refine ⟨analysis_of (p.foldl analyzeStep initAcc), ?_, ?_⟩
  · unfold analyze_portfolio
    rw [if_neg hcheck, if_neg hz]
  · show typeWeight _ .Equity * 100 + typeWeight _ .FixedIncome * 100
      + (p.foldl analyzeStep initAcc).asset_class_weights .CASH * 100 = _
    have hpart := typeWeight_partition (p.foldl analyzeStep initAcc)
    have hsum := foldl_sumAllClasses p initAcc
    have hinit : sumAllClasses initAcc.asset_class_weights = 0 := by
      simp [initAcc, sumAllClasses, assetClassList]
    rw [hinit] at hsum
    rw [sum_map_div_100] at hsum
    have : typeWeight (p.foldl analyzeStep initAcc) .Equity
        + typeWeight (p.foldl analyzeStep initAcc) .FixedIncome
        + (p.foldl analyzeStep initAcc).asset_class_weights .CASH
        = total_percentage p / 100 := by
      rw [hpart, hsum]
      simp [total_percentage]
    nlinarith [this]

/-- Witness for C6 (amended): the sample portfolio has nonnegative
percentages summing to exactly 100, and its three percentage fields
(50, 40, 10) sum back to 100. -/
theorem analyze_percentages_partition_witness :
    ∃ r, analyze_portfolio samplePortfolio = .ok r ∧
      r.equity_percentage + r.fixed_income_percentage + r.cash_percentage
        = total_percentage samplePortfolio :=
  analyze_percentages_partition samplePortfolio (by decide)
    (by rw [← pyAbs_eq_abs]; decide)

/-- C9: for portfolios with nonnegative percentages that pass the weight-sum
check, the computed risk is at least 0.01·(1−0.0001) > 0, so the Sharpe-ratio
division of line 76 can never divide by zero. -/
theorem analyze_risk_positive (p : List Holding)
    (hpos : ∀ h ∈ p, 0 ≤ h.percentage) (r : AnalysisResult)
    (hok : analyze_portfolio p = .ok r) :
    0.01 * (1 - 0.0001) ≤ r.risk ∧ r.risk ≠ 0 := by
  obtain ⟨hcheck, -, hr⟩ := analyze_portfolio_ok p r hok
  subst hr
  have hlb := foldl_weighted_risk_lb p hpos initAcc
  have hinit : initAcc.weighted_risk - 0.01 * initAcc.total_weight = 0 := by
    simp [initAcc]
  rw [hinit] at hlb
  rw [pyAbs_eq_abs] at hcheck
  have htot := (abs_le.mp hcheck).1
  have hbound : 0.01 * (1 - 0.0001) ≤ (analysis_of (p.foldl analyzeStep initAcc)).risk := by
    show 0.01 * (1 - 0.0001) ≤ (p.foldl analyzeStep initAcc).weighted_risk
    nlinarith [hlb, htot]
  exact ⟨hbound, by intro h0; rw [show (analysis_of (p.foldl analyzeStep initAcc)).risk
    = (p.foldl analyzeStep initAcc).weighted_risk from rfl] at hbound h0; nlinarith [hbound, h0.ge]⟩

/-- Witness for C9: the sample portfolio has nonnegative percentages, is
accepted, and its computed risk (0.098) clears the 0.009999 lower bound. -/
theorem analyze_risk_positive_witness :
    ∃ r, analyze_portfolio samplePortfolio = .ok r ∧
      (0.01 * (1 - 0.0001) ≤ r.risk ∧ r.risk ≠ 0) :=
  ⟨_, rfl, analyze_risk_positive samplePortfolio (by decide) _ rfl⟩

/-- C7: the ticker lookup is case-insensitive — any two spellings with the
same uppercasing map to the same class — and every ticker whose uppercasing
is outside the fixed table maps to the `'US_LARGE_CAP'` default instead of
failing. -/
theorem map_ticker_case_insensitive_default :
    (∀ t u : String, pyUpper t = pyUpper u →
      map_ticker_to_asset_class t = map_ticker_to_asset_class u) ∧
    (∀ t : String, pyUpper t ∉ knownTickers →
      map_ticker_to_asset_class t = .US_LARGE_CAP) := by
  constructor
  · intro t u h
    unfold map_ticker_to_asset_class
    rw [h]
  · intro t h
    simp only [knownTickers, List.mem_cons, List.not_mem_nil, or_false, not_or] at h
    obtain ⟨h1, h2, h3, h4, h5, h6, h7, h8, h9, h10, h11, h12, h13, h14, h15, h16, h17, h18⟩ := h
    unfold map_ticker_to_asset_class
    simp [List.mem_cons, h1, h2, h3, h4, h5, h6, h7, h8, h9, h10,
      h11, h12, h13, h14, h15, h16, h17, h18]

/-- Witness for C7: `"Spy"` and `"sPy"` agree, and the unknown ticker
`"TSLA"` defaults to US large cap. -/
theorem map_ticker_case_insensitive_default_witness :
    map_ticker_to_asset_class "Spy" = map_ticker_to_asset_class "sPy" ∧
    map_ticker_to_asset_class "TSLA" = .US_LARGE_CAP :=
  ⟨map_ticker_case_insensitive_default.1 "Spy" "sPy" (by decide),
   map_ticker_case_insensitive_default.2 "TSLA" (by decide)⟩

/-- One parsing-loop step appends at most one holding or one error message,
matching the per-line contributions `parsedLine?` and `lineError?`. -/
theorem parse_foldl_spec (lines : List String) :
    ∀ acc : List ParsedHolding × List String,
      lines.foldl parseStep acc
        = (acc.1 ++ lines.filterMap parsedLine?, acc.2 ++ lines.filterMap lineError?) := by
  induction lines with
  | nil => intro acc; simp
  | cons l t ih =>
    intro acc
    rw [List.foldl_cons, ih]
    rcases hsp : pySplitWs l with - | ⟨ticker, - | ⟨pstr, rest⟩⟩
    · simp [parseStep, parsedLine?, lineError?, hsp]
    · simp [parseStep, parsedLine?, lineError?, hsp]
    · rcases hf : pyFloat? pstr with e | q
      · simp [parseStep, parsedLine?, lineError?, hsp, hf]
      · simp [parseStep, parsedLine?, lineError?, hsp, hf]

/-- C8: `parse_portfolio_input` returns (in input order) exactly the holdings
of the lines with at least two whitespace tokens whose second token converts
to a float — over `float()`'s full acceptance domain, including PEP 515
underscore separators and the non-finite `inf`/`infinity`/`nan` literals —
and exactly one reported error per line whose second token fails conversion;
a failing line is skipped while the remaining lines are still parsed, and no
line ever aborts the batch — the function is total and its result is a plain
pair of holdings and reported errors. -/
theorem parse_portfolio_input_spec (input_text : String) :
    parse_portfolio_input input_text
      = ((pySplitOnChar '\n' (pyStrip input_text)).filterMap parsedLine?,
         (pySplitOnChar '\n' (pyStrip input_text)).filterMap lineError?) := by
  unfold parse_portfolio_input
  rw [parse_foldl_spec]
  simp

/-- ASCII case folding never produces a capital letter: in particular no
character lowercases to `'S'`. -/
theorem toLower_ne_S (c : Char) : Char.toLower c ≠ 'S' := by
  show (if c.toNat ≥ 65 ∧ c.toNat ≤ 90 then Char.ofNat (c.toNat + 32) else c) ≠ 'S'
  split
  · next h =>
    obtain ⟨h65, h90⟩ := h
    intro hEq
    have hval : (Char.ofNat (c.toNat + 32)).toNat = 83 := by rw [hEq]; rfl
    have hvalid : (c.toNat + 32).isValidChar := Or.inl (by omega)
    rw [Char.ofNat, dif_pos hvalid] at hval
    have hn : (Char.ofNatAux (c.toNat + 32) hvalid).toNat = c.toNat + 32 := rfl
    omega
  · next h =>
    intro hEq
    subst hEq
    exact h (by decide)

/-- Lowercased text never contains a capital `'S'`. -/
theorem S_not_mem_pyLower (s : String) : 'S' ∉ (pyLower s).data := by
  intro hmem
  obtain ⟨c, -, hc⟩ := List.mem_map.mp (show 'S' ∈ s.data.map Char.toLower from hmem)
  exact toLower_ne_S c hc

/-- C5 (refuting the claim as stated): `is_summary_satisfactory` returns
`false` on every string whatsoever — the phrase `'Sharpe ratio'` keeps its
capital `S` while the summary is lowercased, so that phrase can never occur
and the check is not the case-insensitive substring test the claim
describes. -/
theorem is_summary_satisfactory_always_false (s : String) :
    is_summary_satisfactory s = false := by
  unfold is_summary_satisfactory
  rw [List.all_eq_false]
  refine ⟨"Sharpe ratio", by simp [required_phrases], ?_⟩
  simp only [pyIn, decide_eq_true_eq]
  intro hinf
  exact S_not_mem_pyLower s (hinf.subset (by decide))

/-- A keyword that occurs in the lowercasing of one of the concatenated
pieces occurs in the lowercasing of the whole concatenation. -/
theorem infix_lower_strConcat {kw : List Char} {piece : String} {L : List String}
    (hmem : piece ∈ L) (hkw : kw <:+: piece.data.map Char.toLower) :
    kw <:+: (pyLower (strConcat L)).data := by
  have h1 : (pyLower (strConcat L)).data
      = ((L.map String.data).map (List.map Char.toLower)).flatten := by
    show ((L.map String.data).flatten).map Char.toLower = _
    rw [List.map_flatten]
  rw [h1]
  exact hkw.trans (List.infix_of_mem_flatten
    (List.mem_map_of_mem _ (List.mem_map_of_mem _ hmem)))

/-- Locating a keyword inside the piece at a known index of the template's
piece list certifies the substring test on the full rendered summary. -/
theorem pyIn_of_piece_at (kw : String) (L : List String) (i : ℕ) (piece : String)
    (hget : L.get? i = some piece)
    (hkw : kw.data <:+: piece.data.map Char.toLower) :
    pyIn kw (pyLower (strConcat L)) = true := by
  rw [pyIn, decide_eq_true_eq]
  exact infix_lower_strConcat (List.get?_mem hget) hkw

set_option maxRecDepth 8000 in
/-- C4 (amended): every rendered fallback template contains the six topic
keywords stocks, bonds, cash, risk, return, sharpe ratio as case-insensitive
substrings, and the first and third templates (choices 0 and 2) also contain
"financial advisor"; the second template ends in "financial advice" instead,
so that seventh keyword is not guaranteed for choice 1. -/
theorem fallback_contains_keywords (analysis : AnalysisResult) (choice : Fin 3) :
    (["stocks", "bonds", "cash", "risk", "return", "sharpe ratio"].all
      fun kw => pyIn kw (pyLower (generate_fallback_summary choice analysis))) = true ∧
    (choice ≠ 1 →
      pyIn "financial advisor" (pyLower (generate_fallback_summary choice analysis)) = true) := by
  fin_cases choice
  · constructor
    · simp only [List.all_cons, List.all_nil, Bool.and_eq_true]
      exact ⟨pyIn_of_piece_at _ _ 4 _ rfl (by decide),
        pyIn_of_piece_at _ _ 6 _ rfl (by decide),
        pyIn_of_piece_at _ _ 8 _ rfl (by decide),
        pyIn_of_piece_at _ _ 8 _ rfl (by decide),
        pyIn_of_piece_at _ _ 8 _ rfl (by decide),
        pyIn_of_piece_at _ _ 12 _ rfl (by decide), trivial⟩
    · exact fun _ => pyIn_of_piece_at _ _ 14 _ rfl (by decide)
  · constructor
    · simp only [List.all_cons, List.all_nil, Bool.and_eq_true]
      exact ⟨pyIn_of_piece_at _ _ 4 _ rfl (by decide),
        pyIn_of_piece_at _ _ 6 _ rfl (by decide),
        pyIn_of_piece_at _ _ 8 _ rfl (by decide),
        pyIn_of_piece_at _ _ 10 _ rfl (by decide),
        pyIn_of_piece_at _ _ 8 _ rfl (by decide),
        pyIn_of_piece_at _ _ 12 _ rfl (by decide), trivial⟩
    · intro hne
      exact absurd rfl hne
  · constructor
    · simp only [List.all_cons, List.all_nil, Bool.and_eq_true]
      exact ⟨pyIn_of_piece_at _ _ 4 _ rfl (by decide),
        pyIn_of_piece_at _ _ 6 _ rfl (by decide),
        pyIn_of_piece_at _ _ 8 _ rfl (by decide),
        pyIn_of_piece_at _ _ 12 _ rfl (by decide),
        pyIn_of_piece_at _ _ 8 _ rfl (by decide),
        pyIn_of_piece_at _ _ 12 _ rfl (by decide), trivial⟩
    · exact fun _ => pyIn_of_piece_at _ _ 14 _ rfl (by decide)

/-- Witness for C4 (amended): for the sample portfolio's analysis record and
template choice 0, the six keywords and "financial advisor" are all present. -/
theorem fallback_contains_keywords_witness :
    (["stocks", "bonds", "cash", "risk", "return", "sharpe ratio"].all
      fun kw => pyIn kw (pyLower (generate_fallback_summary 0
        (analysis_of (samplePortfolio.foldl analyzeStep initAcc))))) = true ∧
    pyIn "financial advisor" (pyLower (generate_fallback_summary 0
      (analysis_of (samplePortfolio.foldl analyzeStep initAcc)))) = true :=
  ⟨(fallback_contains_keywords (analysis_of (samplePortfolio.foldl analyzeStep initAcc)) 0).1,
   (fallback_contains_keywords (analysis_of (samplePortfolio.foldl analyzeStep initAcc)) 0).2
     (by decide)⟩

set_option maxRecDepth 8000 in
/-- C4 counterexample: for the sample portfolio's analysis record and
template choice 1, the rendered fallback summary does not contain all seven
required keywords — "financial advisor" is missing (the template says
"professional financial advice"). -/
theorem fallback_missing_advisor_counterexample :
    (required_phrases_ci.all fun kw =>
      pyIn kw (pyLower (generate_fallback_summary 1
        (analysis_of (samplePortfolio.foldl analyzeStep initAcc))))) = false := by
  decide

/-- Pieces produced by `splitCharAux` never contain the separator, provided
the in-progress piece does not. -/
theorem splitCharAux_pieces (sep : Char) (l : List Char) :
    ∀ cur, sep ∉ cur → ∀ piece ∈ splitCharAux sep cur l, sep ∉ piece := by
  induction l with
  | nil =>
    intro cur hcur piece hp
    simp only [splitCharAux, List.mem_singleton] at hp
    subst hp
    rw [List.mem_reverse]
    exact hcur
  | cons c cs ih =>
    intro cur hcur piece hp
    unfold splitCharAux at hp
    by_cases hc : c = sep
    · rw [if_pos hc] at hp
      rcases List.mem_cons.mp hp with h | h
      · subst h
        rw [List.mem_reverse]
        exact hcur
      · exact ih [] (by simp) piece h
    · rw [if_neg hc] at hp
      refine ih (c :: cur) ?_ piece hp
      intro hmem
      rcases List.mem_cons.mp hmem with h | h
      · exact hc h.symm
      · exact hcur h

/-- Pieces of `splitChar` never contain the separator. -/
theorem splitChar_pieces (sep : Char) (l : List Char) :
    ∀ piece ∈ splitChar sep l, sep ∉ piece :=
  splitCharAux_pieces sep l [] (by simp)

/-- On separator-free input, `splitCharAux` returns a single piece. -/
theorem splitCharAux_of_not_mem (sep : Char) (l : List Char) (h : sep ∉ l) :
    ∀ cur, splitCharAux sep cur l = [cur.reverse ++ l] := by
  induction l with
  | nil => intro cur; simp [splitCharAux]
  | cons c cs ih =>
    intro cur
    have hc : ¬(c = sep) := fun heq => h (by rw [heq]; exact List.mem_cons_self _ _)
    unfold splitCharAux
    rw [if_neg hc, ih (fun hmem => h (List.mem_cons_of_mem _ hmem)) (c :: cur)]
    simp

/-- On separator-free input, `splitChar` does not split. -/
theorem splitChar_of_not_mem (sep : Char) (l : List Char) (h : sep ∉ l) :
    splitChar sep l = [l] := by
  unfold splitChar
  rw [splitCharAux_of_not_mem sep l h []]
  rfl

/-- A newline-free string survives `pySplitOnChar '\n'` unsplit. -/
theorem pySplitOnChar_of_no_newline (s : String) (h : '\n' ∉ s.data) :
    pySplitOnChar '\n' s = [s] := by
  unfold pySplitOnChar
  rw [splitChar_of_not_mem _ _ h]
  rfl

/-- Members of the deduplication fold come from the accumulator or the input. -/
theorem mem_foldl_dedupStep (lines : List String) :
    ∀ acc x, x ∈ lines.foldl dedupStep acc → x ∈ acc ∨ x ∈ lines := by
  induction lines with
  | nil =>
    intro acc x h
    rw [List.foldl_nil] at h
    exact Or.inl h
  | cons l t ih =>
    intro acc x h
    rw [List.foldl_cons] at h
    rcases ih (dedupStep acc l) x h with h' | h'
    · unfold dedupStep at h'
      by_cases hl : l ∈ acc
      · rw [if_pos hl] at h'
        exact Or.inl h'
      · rw [if_neg hl] at h'
        rcases List.mem_append.mp h' with h'' | h''
        · exact Or.inl h''
        · rw [List.mem_singleton] at h''
          subst h''
          exact Or.inr (List.mem_cons_self _ _)
    · exact Or.inr (List.mem_cons_of_mem _ h')

/-- A character absent from the separator and from every piece is absent
from the joined result. -/
theorem not_mem_joinWith (c : Char) (sep : List Char) :
    ∀ pieces : List (List Char), c ∉ sep → (∀ p ∈ pieces, c ∉ p) →
      c ∉ joinWith sep pieces := by
  intro pieces
  induction pieces with
  | nil => intro _ _; simp [joinWith]
  | cons x xs ih =>
    intro hsep hp
    cases xs with
    | nil => simpa [joinWith] using hp x (List.mem_cons_self _ _)
    | cons y t =>
      show c ∉ x ++ sep ++ joinWith sep (y :: t)
      intro hmem
      rcases List.mem_append.mp hmem with h | h
      · rcases List.mem_append.mp h with h' | h'
        · exact hp x (List.mem_cons_self _ _) h'
        · exact hsep h'
      · exact ih hsep (fun p hpm => hp p (List.mem_cons_of_mem _ hpm)) h

/-- The cleaned summary never contains a newline: every deduplicated line
came out of the newline split, and the space separator has none either. -/
theorem no_newline_cleaned_summary (s : String) :
    '\n' ∉ (cleaned_summary_of s).data := by
  unfold cleaned_summary_of
  show '\n' ∉ joinWith " ".data (((pySplitOnChar '\n' s).foldl dedupStep []).map String.data)
  apply not_mem_joinWith
  · decide
  · intro p hp
    obtain ⟨x, hx, rfl⟩ := List.mem_map.mp hp
    rcases mem_foldl_dedupStep _ _ _ hx with h | h
    · simp at h
    · obtain ⟨l, hl, rfl⟩ := List.mem_map.mp h
      exact splitChar_pieces '\n' s.data l hl

/-- Appending a period makes a string end with a period. -/
theorem pyEndsWith_append_dot (s : String) : pyEndsWith "." (s ++ ".") = true := by
  rw [pyEndsWith, decide_eq_true_eq]
  exact ⟨s.data, rfl⟩

/-- The output of `post_process_summary` always ends with `'.'`. -/
theorem post_process_summary_endsWith (s : String) :
    pyEndsWith "." (post_process_summary s) = true := by
  unfold post_process_summary
  split
  · next h => exact h
  · exact pyEndsWith_append_dot _

/-- The output of `post_process_summary` never contains a newline. -/
theorem no_newline_post_process_summary (s : String) :
    '\n' ∉ (post_process_summary s).data := by
  unfold post_process_summary
  split
  · exact no_newline_cleaned_summary s
  · show '\n' ∉ (cleaned_summary_of s).data ++ ".".data
    intro hmem
    rcases List.mem_append.mp hmem with h | h
    · exact no_newline_cleaned_summary s h
    · simp at h

/-- On a newline-free string the cleaning pass is the identity. -/
theorem cleaned_summary_of_no_newline (r : String) (h : '\n' ∉ r.data) :
    cleaned_summary_of r = r := by
  unfold cleaned_summary_of
  rw [pySplitOnChar_of_no_newline r h]
  rfl

/-- C10: `post_process_summary` is idempotent, and its output always ends
with a period. -/
theorem post_process_summary_idempotent (s : String) :
    post_process_summary (post_process_summary s) = post_process_summary s ∧
    pyEndsWith "." (post_process_summary s) = true := by
  refine ⟨?_, post_process_summary_endsWith s⟩
  conv_lhs => rw [post_process_summary]
  rw [cleaned_summary_of_no_newline _ (no_newline_post_process_summary s)]
  rw [if_pos (post_process_summary_endsWith s)]
